import Mathlib

/-!
Verification of the awesome-claude-skills metadata-extraction pipeline.

This file shallowly embeds the core of the repository's skill scraper:

* `parse_metadata`   — `SkillParser._parse_metadata` (scripts/fetching/parsers.py):
  frontmatter-first extraction with a line-by-line repair pass and
  heuristic name/description fallback.
* `parse_from_file`  — `SkillParser.parse_from_file`: skip rules, `.git` root
  discovery, relative-path computation and `Skill` assembly.
* `parse_skill_md`   — `Fetcher._parse_skill_md` (scripts/utils/fetcher.py):
  the heuristic-only extraction variant.
* `clone_and_scan_repository` — the scan-and-build part of
  `Fetcher.clone_and_scan_repository` (the git clone itself is an external
  collaborator and is modelled by handing the function an already
  materialized file tree).

Filesystem paths are modelled as lists of components (`List String`); a file
tree is a list of directories plus a list of `(path, content)` pairs.  Python
dictionary values flowing out of the YAML layer are modelled by `YVal`.
String primitives (split/strip/lower/prefix tests) are implemented over
`List Char` by structural recursion so every definition evaluates by kernel
reduction on concrete inputs.
-/

/-! ## Python string primitives -/

/-- Python `s.strip()` (whitespace from both ends). -/
def pyStrip (s : String) : String :=
  (((s.toList.dropWhile Char.isWhitespace).reverse.dropWhile
      Char.isWhitespace).reverse).asString

/-- Python `s.strip(chars)`: drop the given characters from both ends. -/
def pyStripChars (bad : List Char) (s : String) : String :=
  (((s.toList.dropWhile (fun c => bad.contains c)).reverse.dropWhile
      (fun c => bad.contains c)).reverse).asString

/-- Python `s.lower()` (ASCII model). -/
def toLowerS (s : String) : String := (s.toList.map Char.toLower).asString

/-- Python `s.startswith(pre)`. -/
def startsWithS (s pre : String) : Bool := pre.toList.isPrefixOf s.toList

/-- Python `s.endswith(suf)`. -/
def endsWithS (s suf : String) : Bool := suf.toList.isSuffixOf s.toList

/-- Python `c in s` for a single character. -/
def containsC (s : String) (c : Char) : Bool := s.toList.contains c

/-- `pat` occurs as a substring of `l`. -/
def hasSubstrL (pat : List Char) : List Char → Bool
  | [] => pat.isEmpty
  | l@(_ :: t) => pat.isPrefixOf l || hasSubstrL pat t

/-- Python `pat in s` on strings. -/
def hasSubstr (s pat : String) : Bool := hasSubstrL pat.toList s.toList

/-- Splitter on a non-empty separator `s0 :: srest`, greedy leftmost,
non-overlapping (the semantics of Python `str.split`).  The fuel starts at
the length of the scanned list, which the list never exceeds, so the
fuel-exhausted case is unreachable. -/
def splitSepFuel (s0 : Char) (srest : List Char) :
    Nat → List Char → List Char → List (List Char)
  | _, [], acc => [acc.reverse]
  | 0, l, acc => [acc.reverse ++ l]
  | fuel + 1, c :: rest, acc =>
    if (s0 :: srest).isPrefixOf (c :: rest) then
      acc.reverse :: splitSepFuel s0 srest fuel (rest.drop srest.length) []
    else splitSepFuel s0 srest fuel rest (c :: acc)

/-- Python `s.split(sep)` for a non-empty separator. -/
def splitOnS (s sep : String) : List String :=
  match sep.toList with
  | [] => [s]
  | c :: r => (splitSepFuel c r s.toList.length s.toList []).map List.asString

/-- Python `s.split(sep, 2)`: at most three parts, splitting on the two
leftmost non-overlapping occurrences of `sep`. -/
def pySplitMax2 (s sep : String) : List String :=
  let all := splitOnS s sep
  if all.length ≤ 3 then all
  else all.take 2 ++ [String.intercalate sep (all.drop 2)]

/-- Everything after the first `:` of a line (Python `line.split(":", 1)[1]`,
empty when the line has no colon). -/
def afterColon1 (line : String) : String :=
  ((line.toList.dropWhile (fun c => c ≠ ':')).drop 1).asString

/-- Everything before the first `:` of a line (Python `line.split(":", 1)[0]`). -/
def beforeColon1 (line : String) : String :=
  (line.toList.takeWhile (fun c => c ≠ ':')).asString

/-- Python `s.split(pat)[0]`. -/
def beforeSub (pat s : String) : String := (splitOnS s pat).headD s

/-- The double-quote character (written by code point to keep every character
literal plain). -/
def dquote : Char := Char.ofNat 34

/-- The single-quote character. -/
def squote : Char := Char.ofNat 39

/-! ## Python dictionary values -/

/-- Python-level values produced by the structured-metadata (YAML) parse:
strings, flow sequences, mappings and null.  All scalars are kept as strings
(the pipeline only ever treats the four tracked keys as opaque values). -/
inductive YVal where
  | str (s : String)
  | seq (l : List YVal)
  | map (kvs : List (String × YVal))
  | nullv
deriving Repr

/-- Python truthiness for the modelled values (`if frontmatter and ...`,
`if not meta.get("name")`, ...). -/
def pyTruthy : YVal → Bool
  | .str s => s != ""
  | .seq l => !l.isEmpty
  | .map kvs => !kvs.isEmpty
  | .nullv => false

/-- Python `x == s` where `x` is a dict value and `s` a `str`: equal only when
`x` is the same string (comparison with a list/None is `False`). -/
def yEqStr (y : YVal) (s : String) : Bool :=
  match y with
  | .str t => t == s
  | _ => false

/-! ## Model of the strict structured parse (`yaml.safe_load`)

PyYAML is a third-party library, not part of this repository.  The spec calls
it the "strict structured-data parse (YAML-like: mapping of scalar/sequence
values)", and the subset the repository relies on is flat `key: value`
mappings whose values are plain scalars, quoted scalars, or `[...]` flow
sequences.  `yaml_safe_load` models exactly that subset, with the failure
behaviours the source's repair pass is written against: a plain value
containing `": "` (or ending in `:`) is a parse error, and an unquoted flow
item containing a bracket is a parse error.  `none` models a raised
`yaml.YAMLError`. -/

/-- Split the inside of a flow sequence on commas that are outside quotes. -/
def splitCommaOutQ : List Char → Option Char → List Char → List (List Char)
  | [], _, cur => [cur.reverse]
  | c :: rest, none, cur =>
      if c = ',' then cur.reverse :: splitCommaOutQ rest none []
      else if c = dquote ∨ c = squote then splitCommaOutQ rest (some c) (c :: cur)
      else splitCommaOutQ rest none (c :: cur)
  | c :: rest, some q, cur =>
      if c = q then splitCommaOutQ rest none (c :: cur)
      else splitCommaOutQ rest (some q) (c :: cur)

/-- Unwrap a quoted scalar (`"..."` / `'...'`); fails when the closing quote is
missing or the quote character reappears inside. -/
def unwrapQuote (q : Char) (t : String) : Option YVal :=
  let cs := t.toList
  if 2 ≤ cs.length ∧ cs.getLast? = some q ∧
      ¬ ((cs.drop 1).dropLast.contains q) then
    some (.str ((cs.drop 1).dropLast.asString))
  else none

/-- One item of a flow sequence.  An unquoted item containing a bracket, a
quote or a colon is a parse error (this is what makes `[foo[bar], baz]` fail
and triggers the repair pass in the source). -/
def parseFlowItem (p : List Char) : Option YVal :=
  let t := pyStrip p.asString
  if t = "" then none
  else if startsWithS t "\"" then unwrapQuote dquote t
  else if startsWithS t (String.mk [squote]) then unwrapQuote squote t
  else if t.toList.any (fun c => c = '[' ∨ c = ']' ∨ c = '{' ∨ c = '}' ∨
      c = dquote ∨ c = squote ∨ c = ':') then none
  else some (.str t)

/-- The body of a `[...]` flow sequence. -/
def parseFlow (inner : List Char) : Option (List YVal) :=
  if pyStrip inner.asString = "" then some []
  else (splitCommaOutQ inner none []).mapM parseFlowItem

/-- A scalar or flow-sequence value on the right of `key: `. -/
def parseVal (v : String) : Option YVal :=
  if v = "" then some .nullv
  else if startsWithS v "\"" then unwrapQuote dquote v
  else if startsWithS v (String.mk [squote]) then unwrapQuote squote v
  else if startsWithS v "[" then
    if endsWithS v "]" then (parseFlow ((v.toList.drop 1).dropLast)).map .seq
    else none
  else if startsWithS v "\x7b" then none
  else if v = "null" ∨ v = "~" then some .nullv
  else if hasSubstr v ": " ∨ endsWithS v ":" then none
  else some (.str v)

/-- A single `key: value` line of a block mapping; the key must be a plain
scalar and the colon must be followed by a space (or end the line). -/
def parseKVLine (l : String) : Option (String × YVal) :=
  let cs := l.toList
  let key := cs.takeWhile (fun c => c ≠ ':')
  let rest := cs.dropWhile (fun c => c ≠ ':')
  match rest with
  | [] => none
  | _ :: rest2 =>
    let keyS := pyStrip key.asString
    if keyS = "" ∨ key.any (fun c => c = '[' ∨ c = ']' ∨ c = '{' ∨ c = '}' ∨
        c = dquote ∨ c = squote ∨ c = '#') ∨ startsWithS keyS "-" then none
    else
      match rest2 with
      | [] => some (keyS, .nullv)
      | c :: _ =>
        if c = ' ' then (parseVal (pyStrip rest2.asString)).map (fun v => (keyS, v))
        else none

/-- The non-blank, non-comment lines of a document, trimmed. -/
def yamlLines (s : String) : List String :=
  ((splitOnS s "\n").map pyStrip).filter
    (fun l => l ≠ "" ∧ ¬ startsWithS l "#")

/-- Model of `yaml.safe_load` on the flat subset used by SKILL.md frontmatter.
`none` models a raised `yaml.YAMLError`. -/
def yaml_safe_load (s : String) : Option YVal :=
  let lines := yamlLines s
  match lines with
  | [] => some .nullv
  | [l] =>
    match parseKVLine l with
    | some kv => some (.map [kv])
    | none => parseVal l
  | _ =>
    match lines.mapM parseKVLine with
    | some kvs => some (.map kvs)
    | none => none

/-! ## The repair pass (parsers.py lines 126-173) -/

/-- A word character, as in the regex `\w` (ASCII model). -/
def wordChar (c : Char) : Bool := c.isAlphanum || c = '_'

/-- After a `[`: does `[^\]]+\]` match here, i.e. is there a `]` later with at
least one other character first? -/
def nonEmptyThenRB : List Char → Bool
  | [] => false
  | c :: rest => c ≠ ']' && rest.contains ']'

/-- Scanner for `re.search(r'\w+\[[^\]]+\]', val)`: some `[` preceded by a word
character and followed by a non-empty bracket-free run then `]`. -/
def tailHasNested : Char → List Char → Bool
  | prev, '[' :: rest =>
      (wordChar prev && nonEmptyThenRB rest) || tailHasNested '[' rest
  | _, c :: rest => tailHasNested c rest
  | _, [] => false

/-- `re.search(r'\w+\[[^\]]+\]', val)` is not `None`. -/
def hasNested (s : String) : Bool :=
  match s.toList with
  | [] => false
  | c :: rest => tailHasNested c rest

/-- The source's bracket-depth comma splitter: commas are item separators only
at depth 0; intermediate items are stripped and appended even when empty, the
final item only when non-empty after stripping. -/
def depthSplitGo (cs : List Char) (depth : Int) (cur : String) : List String :=
  match cs with
  | [] => if pyStrip cur = "" then [] else [pyStrip cur]
  | c :: rest =>
    if c = '[' then depthSplitGo rest (depth + 1) (cur.push c)
    else if c = ']' then depthSplitGo rest (depth - 1) (cur.push c)
    else if c = ',' ∧ depth = 0 then pyStrip cur :: depthSplitGo rest depth ""
    else depthSplitGo rest depth (cur.push c)

/-- Re-quote the items of a flow sequence value `val` (outer brackets
included): items containing `[` that are not already quoted are wrapped in
double quotes, and the sequence is re-joined with `", "`. -/
def requoteFlow (val : String) : String :=
  let items := depthSplitGo ((val.toList.drop 1).dropLast) 0 ""
  let quoted := items.map (fun item =>
    if containsC item '[' ∧
        ¬ (startsWithS item "\"" ∨ startsWithS item (String.mk [squote])) then
      (String.mk [dquote]) ++ item ++ (String.mk [dquote])
    else item)
  "[" ++ String.intercalate ", " quoted ++ "]"

/-- One line of the repair pass: for `key: value` lines, re-tokenize a
bracketed flow value with unquoted nested brackets, or wrap an unquoted value
containing a colon in double quotes; other lines pass through. -/
def repairLine (line : String) : String :=
  if containsC line ':' ∧ ¬ startsWithS (pyStrip line) "#" then
    let key := beforeColon1 line
    let val := pyStrip (afterColon1 line)
    let val2 :=
      if startsWithS val "[" ∧ endsWithS val "]" then
        if hasNested val then requoteFlow val else val
      else if containsC val ':' ∧
          ¬ (startsWithS val "\"" ∨ startsWithS val (String.mk [squote])) then
        (String.mk [dquote]) ++ val ++ (String.mk [dquote])
      else val
    key ++ ": " ++ val2
  else line

/-- The whole repair pass over a frontmatter block. -/
def repairFrontmatter (fm : String) : String :=
  String.intercalate "\n" ((splitOnS fm "\n").map repairLine)

/-! ## `SkillParser._parse_metadata` -/

/-- The metadata dictionary: `_parse_metadata` seeds all four keys, so they are
always present (which is why the later `meta.get(key, default)` defaults in
`parse_from_file` can never apply). -/
structure SkillMeta where
  name : YVal
  description : YVal
  category : YVal
  tags : YVal
deriving Repr

/-- `meta = {"name": "", "description": "", "category": "Uncategorized",
"tags": []}`. -/
def metaDefault : SkillMeta :=
  { name := .str "", description := .str "", category := .str "Uncategorized",
    tags := .seq [] }

/-- One step of `meta.update(frontmatter)` restricted to the four tracked keys
(no other key of the dictionary is ever read downstream). -/
def applyKV (m : SkillMeta) (kv : String × YVal) : SkillMeta :=
  if kv.1 = "name" then { m with name := kv.2 }
  else if kv.1 = "description" then { m with description := kv.2 }
  else if kv.1 = "category" then { m with category := kv.2 }
  else if kv.1 = "tags" then { m with tags := kv.2 }
  else m

/-- `meta.update(frontmatter)`: later bindings win. -/
def updateMeta : SkillMeta → List (String × YVal) → SkillMeta
  | m, [] => m
  | m, kv :: rest => updateMeta (applyKV m kv) rest

/-- The value a Python dict built from `kvs` holds at `k` (later bindings
win). -/
def lookupLast (kvs : List (String × YVal)) (k : String) : Option YVal :=
  match kvs with
  | [] => none
  | kv :: rest =>
    match lookupLast rest k with
    | some w => some w
    | none => if kv.1 = k then some kv.2 else none

/-- `content.split("---", 2)`. -/
def fmSegments (content : String) : List String := pySplitMax2 content "---"

/-- `parts[1]`, the frontmatter block. -/
def fmBlock (content : String) : String := ((fmSegments content).drop 1).headD ""

/-- `parts[2]`, the body after the frontmatter. -/
def fmRest (content : String) : String := ((fmSegments content).drop 2).headD ""

/-- The outcome of the frontmatter attempt: strict parse, then the repair pass
on failure; `none` when the content has no frontmatter shape or both parses
fail (the failure of the second parse escapes to the enclosing
`except Exception`, which leaves the defaults in place). -/
def fmOutcome (content : String) : Option YVal :=
  if startsWithS content "---" ∧ (fmSegments content).length = 3 then
    match yaml_safe_load (fmBlock content) with
    | some y => some y
    | none => yaml_safe_load (repairFrontmatter (fmBlock content))
  else none

/-- The merged frontmatter mapping, when the parse produced a non-empty dict
(`if frontmatter and isinstance(frontmatter, dict)`). -/
def fmMerged (content : String) : Option (List (String × YVal)) :=
  match fmOutcome content with
  | some (.map kvs) => if kvs.isEmpty then none else some kvs
  | _ => none

/-- Heuristic name: the first stripped line starting with `# `. -/
def heurName (m : SkillMeta) (lines : List String) : SkillMeta :=
  if pyTruthy m.name then m
  else
    match (lines.map pyStrip).find? (fun l => startsWithS l "# ") with
    | some l => { m with name := .str (pyStrip (l.drop 2)) }
    | none => m

/-- The description-collection loop: lines after the header equal to the
resolved name, until the next header. -/
def collectDescY (nm : YVal) : List String → Bool → List String
  | [], _ => []
  | l :: r, inD =>
    let t := pyStrip l
    if startsWithS t "# " && pyTruthy nm && yEqStr nm (pyStrip (t.drop 2)) then
      collectDescY nm r true
    else if startsWithS t "#" && inD then []
    else if inD && t != "" then t :: collectDescY nm r inD
    else collectDescY nm r inD

/-- Heuristic description: joined with single spaces, assigned only when some
line was collected. -/
def heurDesc (m : SkillMeta) (lines : List String) : SkillMeta :=
  if pyTruthy m.description then m
  else if (collectDescY m.name lines false).isEmpty then m
  else
    { m with description := YVal.str (pyStrip (String.intercalate " " (collectDescY m.name lines false))) }

/-- The heuristic phase of `_parse_metadata`, run over whatever content is left
after the frontmatter step. -/
def applyHeuristics (m : SkillMeta) (content : String) : SkillMeta :=
  heurDesc (heurName m (splitOnS content "\n")) (splitOnS content "\n")

/-- `SkillParser._parse_metadata` on the raw file text: merge a successfully
parsed non-empty frontmatter mapping over the defaults and strip the block, or
keep the defaults and the whole content; then run the heuristics. -/
def parse_metadata (content : String) : SkillMeta :=
  match fmMerged content with
  | some kvs => applyHeuristics (updateMeta metaDefault kvs) (fmRest content)
  | none => applyHeuristics metaDefault content

/-! ## Path resolution and `SkillParser.parse_from_file`

Paths are lists of components measured from the filesystem root: `Path("/a/b")`
is `["a", "b"]` and the root itself is `[]`.  `gitRoots` lists the directories
that contain a `.git` entry. -/

/-- `Path.name`: the final component (empty for the root). -/
def pathName (p : List String) : String := p.getLast?.getD ""

/-- `Path.parents`: proper ancestors, nearest first, ending at the root. -/
def pathParents (p : List String) : List (List String) :=
  ((List.range p.length).map (fun k => p.take k)).reverse

/-- `str()` of a path produced by `relative_to`: `"."` for the empty relative
path, else the components joined with `/`. -/
def relStr (p : List String) : String :=
  if p.isEmpty then "." else String.intercalate "/" p

/-- Root discovery (parsers.py lines 40-55): the skill directory itself if it
holds `.git`, else the nearest ancestor that does, else `skill_dir.parents[-2]`
(the second entry from the end of `parents`), falling back to
`skill_dir.parent` when `parents[-2]` raises `IndexError`. -/
def findRepoRoot (gitRoots : List (List String)) (skill_dir : List String) :
    List String :=
  if gitRoots.contains skill_dir then skill_dir
  else
    match (pathParents skill_dir).find? (fun a => gitRoots.contains a) with
    | some r => r
    | none =>
      match (pathParents skill_dir).reverse with
      | _ :: x :: _ => x
      | _ => skill_dir.dropLast

/-- The repository coordinate consumed by the parser (`RepoConfig` of
scripts/fetching/base.py, which is not in the scanned sources; its shape is
the one the spec gives for the repository coordinate).  `path` is the optional
sub-path restriction, already split into components. -/
structure RepoConfig where
  owner : String
  name : String
  branch : String
  path : Option (List String)
deriving Repr

/-- `SkillParser.create_entity_key`. -/
def create_entity_key (cfg : RepoConfig) (entity_name : String) : String :=
  cfg.owner ++ "/" ++ cfg.name ++ ":" ++ entity_name

/-- The `Skill` record as assembled by `SkillParser.parse_from_file`.  The four
metadata fields carry the Python values taken from the metadata dictionary. -/
structure Skill where
  id : String
  name : YVal
  description : YVal
  category : YVal
  tags : YVal
  marketplace_id : String
  repo_owner : String
  repo_name : String
  repo_branch : String
  directory : String
  readme_url : String
deriving Repr

/-- `SkillParser.parse_from_file`: skip non-`SKILL.md` files and `cam_`
directories, resolve the repository root, compute relative paths and build the
`Skill`.  `content` is the text of the file (the `open` happens inside
`_parse_metadata` in the source; a read failure there degrades to the default
metadata, which is the same as passing content that fails every parse). -/
def parse_from_file (gitRoots : List (List String)) (file_path : List String)
    (cfg : RepoConfig) (content : String) : Option Skill :=
  if pathName file_path ≠ "SKILL.md" then none
  else if startsWithS (pathName file_path.dropLast) "cam_" then none
  else
    let skill_dir := file_path.dropLast
    let meta := parse_metadata content
    let repo_root := findRepoRoot gitRoots skill_dir
    let repo_relative_path :=
      if repo_root.isPrefixOf skill_dir then relStr (skill_dir.drop repo_root.length)
      else pathName skill_dir
    -- `source_directory` mirrors the source: computed (and rebased onto the
    -- configured sub-path) but never read by the `Skill` construction.
    let source_directory := repo_relative_path
    let source_directory :=
      match cfg.path with
      | some sp =>
        if (repo_root ++ sp).isPrefixOf skill_dir then
          relStr (skill_dir.drop (repo_root ++ sp).length)
        else source_directory
      | none => source_directory
    let directory :=
      if skill_dir = repo_root then (if cfg.name ≠ "" then cfg.name else ".")
      else pathName skill_dir
    some {
      id := create_entity_key cfg directory,
      -- the metadata dictionary always carries the four keys, so the
      -- `meta.get(key, default)` defaults of the source are unreachable
      name := meta.name,
      description := meta.description,
      category := meta.category,
      tags := meta.tags,
      marketplace_id := cfg.owner ++ "/" ++ cfg.name,
      repo_owner := cfg.owner,
      repo_name := cfg.name,
      repo_branch := cfg.branch,
      directory := directory,
      readme_url := "https://github.com/" ++ cfg.owner ++ "/" ++ cfg.name ++
        "/tree/" ++ cfg.branch ++ "/" ++ repo_relative_path }

/-! ## `Fetcher._parse_skill_md` (the heuristic-only variant) -/

/-- The dictionary built by `_parse_skill_md`: `name`, `description` and
`tags` are present only when found, `category` is always set at the end. -/
structure SkillData where
  name : Option String
  description : Option String
  category : String
  tags : Option (List String)
deriving Repr

/-- Truthiness of the Python `category` variable (`None` or a string). -/
def opTruthy : Option String → Bool
  | some s => s != ""
  | none => false

/-- The description loop of `_parse_skill_md`, with the name as the optional
dictionary entry. -/
def collectDescF (nm : Option String) : List String → Bool → List String
  | [], _ => []
  | l :: r, inD =>
    let t := pyStrip l
    if startsWithS t "# " && opTruthy nm && (pyStrip (t.drop 2) == nm.getD "") then
      collectDescF nm r true
    else if startsWithS t "#" && inD then []
    else if inD && t != "" then t :: collectDescF nm r inD
    else collectDescF nm r inD

/-- A character kept by `re.sub(r'[^\w\s-]', '', category)` (ASCII model of
`\w`/`\s`). -/
def keepWordChar (c : Char) : Bool :=
  c.isAlphanum || c = '_' || c.isWhitespace || c = '-'

/-- `category[0].upper() + category[1:]`. -/
def capFirst (s : String) : String :=
  match s.toList with
  | [] => ""
  | c :: r => (c.toUpper :: r).asString

/-- The first-pass category pipeline of `_parse_skill_md`: strip whitespace,
emphasis and quotes, then cut trailing `#`, `//` and `;` comments. -/
def catPipeline1 (line : String) : String :=
  let c0 := pyStrip (afterColon1 line)
  let c1 := pyStrip (pyStripChars ['*'] c0)
  let c2 := pyStrip (pyStripChars [squote] (pyStripChars [dquote] c1))
  let c3 := pyStrip (beforeSub "#" c2)
  let c4 := pyStrip (beforeSub "//" c3)
  pyStrip (beforeSub ";" c4)

/-- The second-pass (`**Category:**`) pipeline. -/
def catPipeline2 (line : String) : String :=
  pyStrip (pyStripChars ['*'] (pyStrip (afterColon1 line)))

/-- One `tags:` line: split the remainder on commas and strip each item. -/
def tagItems (line : String) : List String :=
  (splitOnS (pyStrip (afterColon1 line)) ",").map
    (fun t => pyStrip (pyStripChars ['*'] (pyStrip t)))

/-- `Fetcher._parse_skill_md` on the file text: heuristic name, description,
category (two passes plus cleanup, floored at "Uncategorized") and tags. -/
def parse_skill_md (content : String) : SkillData :=
  let lines := splitOnS content "\n"
  let nameO := ((lines.map pyStrip).find? (fun l => startsWithS l "# ")).map
    (fun l => pyStrip (l.drop 2))
  let descLines := collectDescF nameO lines false
  let descO := if descLines.isEmpty then none
    else some (pyStrip (String.intercalate " " descLines))
  let contentLower := toLowerS content
  let cat0 : Option String :=
    if hasSubstr contentLower "category:" || hasSubstr contentLower "categories:" then
      (lines.find? (fun l =>
        let ll := pyStrip (toLowerS l)
        hasSubstr ll "category:" || hasSubstr ll "categories:")).map catPipeline1
    else none
  let cat1 : Option String :=
    if opTruthy cat0 then cat0
    else
      match lines.find? (fun l =>
        hasSubstr (toLowerS l) "**category:**" ||
        hasSubstr (toLowerS l) "**categories:**") with
      | some l => some (catPipeline2 l)
      | none => cat0
  let cat2 : Option String :=
    if opTruthy cat1 then
      cat1.map (fun c =>
        let c1 := pyStrip ((c.toList.filter keepWordChar).asString)
        if c1 ≠ "" then capFirst c1 else c1)
    else cat1
  let category := match cat2 with
    | some s => if s ≠ "" then s else "Uncategorized"
    | none => "Uncategorized"
  let tags := (lines.filter (fun l =>
      let ll := pyStrip (toLowerS l)
      hasSubstr ll "tags:" || hasSubstr ll "tag:")).foldl
    (fun acc l => acc ++ tagItems l) []
  { name := nameO, description := descO, category := category,
    tags := if tags.isEmpty then none else some tags }

/-! ## `Fetcher.clone_and_scan_repository` (scan-and-build part) -/

/-- The skill entry dictionary built by `clone_and_scan_repository`. -/
structure FSkill where
  id : String
  name : String
  description : String
  category : String
  marketplace_id : String
  repo_owner : String
  repo_name : String
  repo_branch : String
  directory : String
  readme_url : String
  tags : List String
deriving Repr, DecidableEq

/-- An already materialized checkout, with paths relative to the repository
root: the set of directories that exist, and the files with their contents
(in filesystem traversal order). -/
structure FetchFS where
  dirs : List (List String)
  files : List (List String × String)
deriving Repr

/-- Build one skill entry from a discovered `SKILL.md` (the body of the per-
file loop of `clone_and_scan_repository`); `scanRel` is the scan directory
relative to the repository root and `p` the file path, which the driver
guarantees lies under it. -/
def buildFetcherSkill (owner name branch : String) (scanRel p : List String)
    (content : String) : FSkill :=
  let skill_dir := p.dropLast
  let rel := skill_dir.drop scanRel.length
  let source_directory := relStr rel
  let directory :=
    if source_directory = "." then
      (if skill_dir ≠ scanRel then pathName skill_dir else name)
    else pathName skill_dir
  let readme_path := relStr skill_dir
  let d := parse_skill_md content
  { id := owner ++ "/" ++ name ++ ":" ++ source_directory,
    name := d.name.getD directory,
    description := d.description.getD "",
    category := d.category,
    marketplace_id := owner ++ "/" ++ name,
    repo_owner := owner,
    repo_name := name,
    repo_branch := branch,
    directory := directory,
    readme_url := "https://github.com/" ++ owner ++ "/" ++ name ++ "/tree/" ++
      branch ++ "/" ++ readme_path,
    tags := d.tags.getD [] }

/-- The recursive `rglob("SKILL.md")` scan under `scanRel` plus the per-file
builds.  `_parse_skill_md` always returns a dictionary holding `category`, so
the `if not skill_data: continue` guard of the source never fires, and
`relative_to(scan_dir)` cannot raise for a file found under the scan
directory. -/
def scanFiles (owner name branch : String) (scanRel : List String)
    (fs : FetchFS) : List FSkill :=
  (fs.files.filter (fun pc =>
      pathName pc.1 == "SKILL.md" && scanRel.isPrefixOf pc.1.dropLast)).map
    (fun pc => buildFetcherSkill owner name branch scanRel pc.1 pc.2)

/-- `Fetcher.clone_and_scan_repository` after the clone has materialized `fs`:
when a skills sub-path is configured and missing, return no skills; otherwise
scan for `SKILL.md` files and build an entry per file. -/
def clone_and_scan_repository (owner name branch : String)
    (skills_path : Option (List String)) (fs : FetchFS) : List FSkill :=
  match skills_path with
  | some sp =>
    if fs.dirs.contains sp then scanFiles owner name branch sp fs else []
  | none => scanFiles owner name branch [] fs

/-! ## Lemmas about the metadata dictionary and the heuristic phase -/

lemma applyKV_name (m : SkillMeta) (kv : String × YVal) :
    (applyKV m kv).name = if kv.1 = "name" then kv.2 else m.name := by
  unfold applyKV; split_ifs <;> rfl

lemma applyKV_description (m : SkillMeta) (kv : String × YVal) :
    (applyKV m kv).description =
      if kv.1 = "description" then kv.2 else m.description := by
  unfold applyKV; split_ifs <;> simp_all

lemma applyKV_category (m : SkillMeta) (kv : String × YVal) :
    (applyKV m kv).category = if kv.1 = "category" then kv.2 else m.category := by
  unfold applyKV; split_ifs <;> simp_all

lemma applyKV_tags (m : SkillMeta) (kv : String × YVal) :
    (applyKV m kv).tags = if kv.1 = "tags" then kv.2 else m.tags := by
  unfold applyKV; split_ifs <;> simp_all

lemma lookupLast_getD_cons (kv : String × YVal) (rest : List (String × YVal))
    (k : String) (x : YVal) :
    (lookupLast (kv :: rest) k).getD x =
      (lookupLast rest k).getD (if kv.1 = k then kv.2 else x) := by
  cases h : lookupLast rest k <;> simp [lookupLast, h] <;> split <;> simp

lemma updateMeta_name (kvs : List (String × YVal)) : ∀ m : SkillMeta,
    (updateMeta m kvs).name = (lookupLast kvs "name").getD m.name := by
  induction kvs with
  | nil => intro m; rfl
  | cons kv rest ih =>
    intro m
    show (updateMeta (applyKV m kv) rest).name = _
    rw [ih, applyKV_name, lookupLast_getD_cons]

lemma updateMeta_description (kvs : List (String × YVal)) : ∀ m : SkillMeta,
    (updateMeta m kvs).description =
      (lookupLast kvs "description").getD m.description := by
  induction kvs with
  | nil => intro m; rfl
  | cons kv rest ih =>
    intro m
    show (updateMeta (applyKV m kv) rest).description = _
    rw [ih, applyKV_description, lookupLast_getD_cons]

lemma updateMeta_category (kvs : List (String × YVal)) : ∀ m : SkillMeta,
    (updateMeta m kvs).category = (lookupLast kvs "category").getD m.category := by
  induction kvs with
  | nil => intro m; rfl
  | cons kv rest ih =>
    intro m
    show (updateMeta (applyKV m kv) rest).category = _
    rw [ih, applyKV_category, lookupLast_getD_cons]

lemma updateMeta_tags (kvs : List (String × YVal)) : ∀ m : SkillMeta,
    (updateMeta m kvs).tags = (lookupLast kvs "tags").getD m.tags := by
  induction kvs with
  | nil => intro m; rfl
  | cons kv rest ih =>
    intro m
    show (updateMeta (applyKV m kv) rest).tags = _
    rw [ih, applyKV_tags, lookupLast_getD_cons]

lemma lookupLast_nil_ne {kvs : List (String × YVal)} {k : String} {v : YVal}
    (h : lookupLast kvs k = some v) : kvs.isEmpty = false := by
  cases kvs with
  | nil => simp [lookupLast] at h
  | cons kv rest => rfl

lemma heurName_category (m : SkillMeta) (ls : List String) :
    (heurName m ls).category = m.category := by
  unfold heurName; split
  · rfl
  · split <;> rfl

lemma heurName_tags (m : SkillMeta) (ls : List String) :
    (heurName m ls).tags = m.tags := by
  unfold heurName; split
  · rfl
  · split <;> rfl

lemma heurName_description (m : SkillMeta) (ls : List String) :
    (heurName m ls).description = m.description := by
  unfold heurName; split
  · rfl
  · split <;> rfl

lemma heurDesc_category (m : SkillMeta) (ls : List String) :
    (heurDesc m ls).category = m.category := by
  unfold heurDesc; split
  · rfl
  · split <;> rfl

lemma heurDesc_tags (m : SkillMeta) (ls : List String) :
    (heurDesc m ls).tags = m.tags := by
  unfold heurDesc; split
  · rfl
  · split <;> rfl

lemma heurDesc_name (m : SkillMeta) (ls : List String) :
    (heurDesc m ls).name = m.name := by
  unfold heurDesc; split
  · rfl
  · split <;> rfl

lemma applyHeuristics_category (m : SkillMeta) (c : String) :
    (applyHeuristics m c).category = m.category := by
  unfold applyHeuristics
  rw [heurDesc_category, heurName_category]

lemma applyHeuristics_tags (m : SkillMeta) (c : String) :
    (applyHeuristics m c).tags = m.tags := by
  unfold applyHeuristics
  rw [heurDesc_tags, heurName_tags]

lemma heurName_of_truthy {m : SkillMeta} (ls : List String)
    (h : pyTruthy m.name = true) : heurName m ls = m := by
  unfold heurName; rw [if_pos h]

lemma heurDesc_of_truthy {m : SkillMeta} (ls : List String)
    (h : pyTruthy m.description = true) : heurDesc m ls = m := by
  unfold heurDesc; rw [if_pos h]

lemma applyHeuristics_of_truthy {m : SkillMeta} (c : String)
    (hn : pyTruthy m.name = true) (hd : pyTruthy m.description = true) :
    applyHeuristics m c = m := by
  unfold applyHeuristics
  rw [heurName_of_truthy _ hn, heurDesc_of_truthy _ hd]

lemma heurName_of_no_header {m : SkillMeta} {ls : List String}
    (h : (ls.map pyStrip).find? (fun l => startsWithS l "# ") = none) :
    heurName m ls = m := by
  unfold heurName; rw [h]; split <;> rfl

lemma collectDescY_of_falsy {nm : YVal} (h : pyTruthy nm = false) :
    ∀ ls : List String, collectDescY nm ls false = [] := by
  intro ls
  induction ls with
  | nil => rfl
  | cons l r ih => simp [collectDescY, h, ih]

lemma heurDesc_of_falsy_name {m : SkillMeta} (ls : List String)
    (h : pyTruthy m.name = false) : heurDesc m ls = m := by
  unfold heurDesc
  split
  · rfl
  · rw [collectDescY_of_falsy h]; rfl

lemma pyTruthy_str_of_ne {s : String} (h : s ≠ "") :
    pyTruthy (YVal.str s) = true := by
  simp [pyTruthy, h]

/-! ## Claims -/

/-- Claim C6: for every input text the metadata extractor returns normally (it
is a total function of the content), and parse failures leave the documented
defaults: when no non-empty frontmatter mapping was merged, `category` is
`"Uncategorized"` and `tags` is the empty sequence, and if additionally no
`# ` header line exists, `name` and `description` are the empty string. -/
theorem C6_parse_failure_defaults (content : String)
    (hfail : fmMerged content = none) :
    (parse_metadata content).category = YVal.str "Uncategorized" ∧
    (parse_metadata content).tags = YVal.seq [] ∧
    (((splitOnS content "\n").map pyStrip).find? (fun l => startsWithS l "# ") = none →
      (parse_metadata content).name = YVal.str "" ∧
      (parse_metadata content).description = YVal.str "") := by
  have hp : parse_metadata content = applyHeuristics metaDefault content := by
    simp [parse_metadata, hfail]
  rw [hp]
  refine ⟨by rw [applyHeuristics_category]; rfl, by rw [applyHeuristics_tags]; rfl, ?_⟩
  intro hnf
  unfold applyHeuristics
  rw [heurName_of_no_header hnf, heurDesc_of_falsy_name _ (by rfl)]
  exact ⟨rfl, rfl⟩

/-- Witness for C6 at a concrete input whose frontmatter fails both parses and
whose body has no header. -/
theorem C6_parse_failure_defaults_witness :
    fmMerged "---\n[oops\n---\nno header" = none ∧
    (parse_metadata "---\n[oops\n---\nno header").name = YVal.str "" ∧
    (parse_metadata "---\n[oops\n---\nno header").category = YVal.str "Uncategorized" := by
  have h := C6_parse_failure_defaults "---\n[oops\n---\nno header" rfl
  exact ⟨rfl, (h.2.2 rfl).1, h.1⟩

/-- Claim C7: when the frontmatter block parses as a mapping binding all four
keys, with non-empty name and description, the extractor output equals the
frontmatter values exactly and no heuristic overrides them. -/
theorem C7_frontmatter_exact (content : String) (kvs : List (String × YVal))
    (n d : String) (cv tv : YVal)
    (hstart : startsWithS content "---" = true)
    (hlen : (fmSegments content).length = 3)
    (hparse : yaml_safe_load (fmBlock content) = some (YVal.map kvs))
    (hn : lookupLast kvs "name" = some (YVal.str n)) (hn2 : n ≠ "")
    (hd : lookupLast kvs "description" = some (YVal.str d)) (hd2 : d ≠ "")
    (hc : lookupLast kvs "category" = some cv)
    (ht : lookupLast kvs "tags" = some tv) :
    (parse_metadata content).name = YVal.str n ∧
    (parse_metadata content).description = YVal.str d ∧
    (parse_metadata content).category = cv ∧
    (parse_metadata content).tags = tv := by
  have hkvs : kvs.isEmpty = false := lookupLast_nil_ne hn
  have hout : fmOutcome content = some (YVal.map kvs) := by
    simp [fmOutcome, hstart, hlen, hparse]
  have hmer : fmMerged content = some kvs := by
    simp [fmMerged, hout, hkvs]
  have hm : parse_metadata content =
      applyHeuristics (updateMeta metaDefault kvs) (fmRest content) := by
    simp [parse_metadata, hmer]
  have hnm : (updateMeta metaDefault kvs).name = YVal.str n := by
    rw [updateMeta_name, hn]; rfl
  have hds : (updateMeta metaDefault kvs).description = YVal.str d := by
    rw [updateMeta_description, hd]; rfl
  have hcat : (updateMeta metaDefault kvs).category = cv := by
    rw [updateMeta_category, hc]; rfl
  have htg : (updateMeta metaDefault kvs).tags = tv := by
    rw [updateMeta_tags, ht]; rfl
  have happ : applyHeuristics (updateMeta metaDefault kvs) (fmRest content) =
      updateMeta metaDefault kvs :=
    applyHeuristics_of_truthy _
      (by rw [hnm]; exact pyTruthy_str_of_ne hn2)
      (by rw [hds]; exact pyTruthy_str_of_ne hd2)
  rw [hm, happ]
  exact ⟨hnm, hds, hcat, htg⟩

/-- Witness for C7 at a concrete four-key frontmatter. -/
theorem C7_frontmatter_exact_witness :
    (parse_metadata "---\nname: Alpha\ndescription: Something\ncategory: Tools\ntags: [a, b]\n---\n# Other\nBody\n").name = YVal.str "Alpha" ∧
    (parse_metadata "---\nname: Alpha\ndescription: Something\ncategory: Tools\ntags: [a, b]\n---\n# Other\nBody\n").category = YVal.str "Tools" := by
  have h := C7_frontmatter_exact
    "---\nname: Alpha\ndescription: Something\ncategory: Tools\ntags: [a, b]\n---\n# Other\nBody\n"
    [("name", YVal.str "Alpha"), ("description", YVal.str "Something"),
     ("category", YVal.str "Tools"), ("tags", YVal.seq [YVal.str "a", YVal.str "b"])]
    "Alpha" "Something" (YVal.str "Tools") (YVal.seq [YVal.str "a", YVal.str "b"])
    rfl rfl rfl rfl (by decide) rfl (by decide) rfl rfl
  exact ⟨h.1, h.2.2.1⟩

/-- Claim C8: the repair pass re-tokenizes `tags: [foo[bar], baz]` by bracket
depth into `tags: ["foo[bar]", baz]`, and the repaired parse of such
frontmatter yields exactly the two tags `"foo[bar]"` and `"baz"` in order. -/
theorem C8_nested_bracket_repair :
    repairLine "tags: [foo[bar], baz]" = "tags: [\"foo[bar]\", baz]" ∧
    yaml_safe_load "\ntags: [foo[bar], baz]\n" = none ∧
    (parse_metadata "---\ntags: [foo[bar], baz]\n---\n").tags =
      YVal.seq [YVal.str "foo[bar]", YVal.str "baz"] :=
  ⟨rfl, rfl, rfl⟩

/-- Claim C9: a configured skills sub-path that does not exist under the
checkout makes the scan return the empty sequence instead of failing. -/
theorem C9_missing_subpath_empty (owner name branch : String)
    (sp : List String) (fs : FetchFS) (h : fs.dirs.contains sp = false) :
    clone_and_scan_repository owner name branch (some sp) fs = [] := by
  simp only [clone_and_scan_repository]
  rw [if_neg (by simpa using h)]

/-- Witness for C9: a checkout containing a `SKILL.md` but no `skills`
directory yields no skills when the sub-path is configured. -/
theorem C9_missing_subpath_empty_witness :
    (FetchFS.mk [[]] [(["a", "SKILL.md"], "x")]).dirs.contains ["skills"] = false ∧
    clone_and_scan_repository "o" "r" "main" (some ["skills"])
      (FetchFS.mk [[]] [(["a", "SKILL.md"], "x")]) = [] :=
  ⟨rfl, C9_missing_subpath_empty "o" "r" "main" ["skills"] _ rfl⟩

/-- Claim C10: when the frontmatter segment parses successfully to a value
that is not a mapping, the defaults are kept and the frontmatter block is not
stripped: the heuristics run over the entire original content. -/
theorem C10_nonmapping_frontmatter (content : String) (y : YVal)
    (hout : fmOutcome content = some y) (hnm : ∀ kvs, y ≠ YVal.map kvs) :
    parse_metadata content = applyHeuristics metaDefault content := by
  have hm : fmMerged content = none := by
    unfold fmMerged
    rw [hout]
    cases y with
    | map kvs => exact absurd rfl (hnm kvs)
    | str s => rfl
    | seq l => rfl
    | nullv => rfl
  simp [parse_metadata, hm]

/-- Witness for C10: a plain-string frontmatter document; the heuristic name
is then taken from the body after the (unstripped) frontmatter lines. -/
theorem C10_nonmapping_frontmatter_witness :
    fmOutcome "---\nplain text\n---\n# T\nBody" = some (YVal.str "plain text") ∧
    parse_metadata "---\nplain text\n---\n# T\nBody" =
      applyHeuristics metaDefault "---\nplain text\n---\n# T\nBody" ∧
    (parse_metadata "---\nplain text\n---\n# T\nBody").name = YVal.str "T" :=
  ⟨rfl, C10_nonmapping_frontmatter _ _ rfl (fun kvs h => YVal.noConfusion h), rfl⟩

/-- Claim C1 counterexample: in the `SkillParser` variant, a skill at depth
two gets id `"o/r:b"` (keyed by the directory name), not
`"o/r:a/b"` (the scan-root-relative path `a/b` the claim requires). -/
theorem C1_counterexample :
    relStr ((["repo", "a", "b", "SKILL.md"] : List String).dropLast.drop
      (["repo"] : List String).length) = "a/b" ∧
    (parse_from_file [["repo"]] ["repo", "a", "b", "SKILL.md"]
      (RepoConfig.mk "o" "r" "m" none) "").map (fun sk => sk.id) = some "o/r:b" ∧
    ("o/r:b" : String) ≠ "o/r:a/b" :=
  ⟨rfl, rfl, by decide⟩

/-- Claim C1 (amended): in the Fetcher scan variant the id is
`owner/repo:source_directory` with the scan-root-relative directory path; in
the `SkillParser` variant the id is `owner/repo:directory` where `directory`
is the parent directory's bare name (or the configured repo name at the
root), which equals the relative path only at depth one. -/
theorem C1_amendment :
    (∀ (owner name branch : String) (scanRel p : List String) (c : String),
      scanRel.isPrefixOf p.dropLast = true →
      (buildFetcherSkill owner name branch scanRel p c).id =
        owner ++ "/" ++ name ++ ":" ++ relStr (p.dropLast.drop scanRel.length)) ∧
    (∀ (gitRoots : List (List String)) (fp : List String) (cfg : RepoConfig)
      (content : String) (sk : Skill),
      parse_from_file gitRoots fp cfg content = some sk →
      sk.id = cfg.owner ++ "/" ++ cfg.name ++ ":" ++ sk.directory) := by
  constructor
  · intro owner name branch scanRel p c _
    rfl
  · intro gitRoots fp cfg content sk h
    unfold parse_from_file at h
    split at h
    · exact absurd h (by simp)
    · split at h
      · exact absurd h (by simp)
      · simp only [Option.some.injEq] at h
        subst h
        rfl

/-- The concrete `Skill` produced for the C1 witness input. -/
def skC1 : Skill :=
  { id := "o/r:a", name := YVal.str "", description := YVal.str "",
    category := YVal.str "Uncategorized", tags := YVal.seq [],
    marketplace_id := "o/r", repo_owner := "o", repo_name := "r",
    repo_branch := "m", directory := "a",
    readme_url := "https://github.com/o/r/tree/m/a" }

/-- Witness for C1 (amended) at concrete inputs for both variants. -/
theorem C1_amendment_witness :
    (buildFetcherSkill "o" "r" "m" [] ["a", "SKILL.md"] "").id =
      "o" ++ "/" ++ "r" ++ ":" ++
        relStr ((["a", "SKILL.md"] : List String).dropLast.drop 0) ∧
    parse_from_file [] ["a", "SKILL.md"] (RepoConfig.mk "o" "r" "m" none) "" =
      some skC1 ∧
    skC1.id = "o" ++ "/" ++ "r" ++ ":" ++ skC1.directory :=
  ⟨C1_amendment.1 "o" "r" "m" [] ["a", "SKILL.md"] "" rfl, rfl,
   C1_amendment.2 [] ["a", "SKILL.md"] (RepoConfig.mk "o" "r" "m" none) "" skC1 rfl⟩

/-- Claim C2: evaluating the `SkillParser` builder on a `SKILL.md` with
neither a frontmatter name nor a `# ` header, in directory `pkg-a`: the
produced name is the empty string, not the directory name (the
`meta.get("name", directory)` fallback is dead because `_parse_metadata`
pre-seeds the key); the Fetcher variant does fall back to the directory. -/
theorem C2_code_eval :
    (parse_from_file [["repo"]] ["repo", "pkg-a", "SKILL.md"]
      (RepoConfig.mk "o" "r" "m" none) "hello world").map (fun sk => sk.name) =
      some (YVal.str "") ∧
    YVal.str "" ≠ YVal.str "pkg-a" ∧
    (buildFetcherSkill "o" "r" "m" [] ["pkg-a", "SKILL.md"] "hello world").name =
      "pkg-a" :=
  ⟨rfl, by simp, rfl⟩

/-- Claim C3 counterexample: the Fetcher scan variant has no `cam_` exclusion
and produces a skill for a `cam_`-prefixed directory. -/
theorem C3_counterexample :
    (clone_and_scan_repository "o" "r" "main" none
      (FetchFS.mk [[]] [(["cam_x", "SKILL.md"], "")])).map (fun s => s.id) =
      ["o/r:cam_x"] := rfl

/-- Claim C3 (amended): the `SkillParser` variant never produces a skill for a
metadata file whose parent directory name starts with `cam_`, but the Fetcher
scan variant applies no such exclusion: every discovered `SKILL.md`, including
one in a `cam_` directory, yields a skill entry. -/
theorem C3_amendment :
    (∀ (gitRoots : List (List String)) (fp : List String) (cfg : RepoConfig)
      (content : String),
      startsWithS (pathName fp.dropLast) "cam_" = true →
      parse_from_file gitRoots fp cfg content = none) ∧
    (∀ (owner name branch : String) (fs : FetchFS) (p : List String) (c : String),
      (p, c) ∈ fs.files → pathName p = "SKILL.md" →
      startsWithS (pathName p.dropLast) "cam_" = true →
      buildFetcherSkill owner name branch [] p c ∈
        clone_and_scan_repository owner name branch none fs) := by
  constructor
  · intro gitRoots fp cfg content h
    by_cases h1 : pathName fp ≠ "SKILL.md"
    · unfold parse_from_file; rw [if_pos h1]
    · unfold parse_from_file; rw [if_neg h1, if_pos h]
  · intro owner name branch fs p c hmem hname _
    unfold clone_and_scan_repository scanFiles
    refine List.mem_map.mpr ⟨(p, c), List.mem_filter.mpr ⟨hmem, ?_⟩, rfl⟩
    rw [hname]
    simp [List.isPrefixOf]

/-- Witness for C3 (amended) at concrete inputs for both variants. -/
theorem C3_amendment_witness :
    parse_from_file [] ["x", "cam_foo", "SKILL.md"]
      (RepoConfig.mk "o" "r" "m" none) "# N" = none ∧
    buildFetcherSkill "o" "r" "main" [] ["cam_x", "SKILL.md"] "" ∈
      clone_and_scan_repository "o" "r" "main" none
        (FetchFS.mk [[]] [(["cam_x", "SKILL.md"], "")]) :=
  ⟨C3_amendment.1 [] ["x", "cam_foo", "SKILL.md"] (RepoConfig.mk "o" "r" "m" none)
      "# N" rfl,
   C3_amendment.2 "o" "r" "main" (FetchFS.mk [[]] [(["cam_x", "SKILL.md"], "")])
      ["cam_x", "SKILL.md"] "" (List.Mem.head _) rfl rfl⟩

/-- Claim C4 counterexample: with no `.git` anywhere on the chain, the
resolver picks `/tmp` (the top-level ancestor, `parents[-2]`) as the root for
`/tmp/x/repo/pkg`, not the metadata file's parent directory itself. -/
theorem C4_counterexample :
    findRepoRoot [] ["tmp", "x", "repo", "pkg"] = ["tmp"] ∧
    (["tmp"] : List String) ≠ ["tmp", "x", "repo", "pkg"] :=
  ⟨rfl, by decide⟩

/-- Claim C4 (amended): when no ancestor-or-self contains the `.git` marker,
root discovery falls back to `parents[-2]` — the single top-level component of
the path — or to the parent directory (the filesystem root) when the skill
directory has fewer than two components; never to the skill directory itself
(unless it is that top-level directory). -/
theorem C4_amendment (gitRoots : List (List String)) (d : List String)
    (hd : gitRoots.contains d = false)
    (hp : ∀ a ∈ pathParents d, gitRoots.contains a = false) :
    findRepoRoot gitRoots d = if 2 ≤ d.length then d.take 1 else [] := by
  have hfind : (pathParents d).find? (fun a => gitRoots.contains a) = none :=
    List.find?_eq_none.mpr (fun a ha => by simpa using hp a ha)
  unfold findRepoRoot
  rw [if_neg (by simpa using hd), hfind]
  obtain _ | ⟨a, _ | ⟨b, t⟩⟩ := d
  · rfl
  · rfl
  · rw [pathParents, List.reverse_reverse]
    have hr : List.range (a :: b :: t).length =
        0 :: 1 :: (List.range t.length).map (fun i => i + 2) := by
      simp [List.range_succ_eq_map, List.map_map]
    rw [hr]
    simp

/-- Witness for C4 (amended) at the concrete no-marker path. -/
theorem C4_amendment_witness :
    findRepoRoot [] ["tmp", "x", "repo", "pkg"] = ["tmp"] ∧
    ([] : List (List String)).contains ["tmp", "x", "repo", "pkg"] = false := by
  have h := C4_amendment [] ["tmp", "x", "repo", "pkg"] rfl (fun a _ => rfl)
  exact ⟨by simpa using h, rfl⟩

/-- Claim C5 counterexample: frontmatter that explicitly sets `category` to
the empty string passes through `meta.update` and the built `Skill` carries an
empty category. -/
theorem C5_counterexample :
    (parse_from_file [["r"]] ["r", "s", "SKILL.md"] (RepoConfig.mk "o" "r" "m" none)
      "---\ncategory: \"\"\n---\n").map (fun sk => sk.category) =
      some (YVal.str "") ∧
    YVal.str "" ≠ YVal.str "Uncategorized" :=
  ⟨rfl, by simp⟩

/-- Claim C5 (amended): the category is `"Uncategorized"` whenever the
frontmatter does not successfully supply a `category` binding (no merge, or a
merged mapping without the key); a merged binding is used verbatim — including
explicit empty or null values, so the built category can then be empty. -/
theorem C5_amendment (content : String) :
    (fmMerged content = none →
      (parse_metadata content).category = YVal.str "Uncategorized") ∧
    (∀ kvs, fmMerged content = some kvs → lookupLast kvs "category" = none →
      (parse_metadata content).category = YVal.str "Uncategorized") ∧
    (∀ kvs v, fmMerged content = some kvs → lookupLast kvs "category" = some v →
      (parse_metadata content).category = v) := by
  refine ⟨?_, ?_, ?_⟩
  · intro h
    simp only [parse_metadata, h]
    rw [applyHeuristics_category]
    rfl
  · intro kvs hm hl
    simp only [parse_metadata, hm]
    rw [applyHeuristics_category, updateMeta_category, hl]
    rfl
  · intro kvs v hm hl
    simp only [parse_metadata, hm]
    rw [applyHeuristics_category, updateMeta_category, hl]
    rfl

/-- Witness for C5 (amended): no frontmatter yields the floor value, a
frontmatter category is used verbatim. -/
theorem C5_amendment_witness :
    (parse_metadata "no frontmatter here").category = YVal.str "Uncategorized" ∧
    (parse_metadata "---\ncategory: Tools\n---\n").category = YVal.str "Tools" :=
  ⟨(C5_amendment "no frontmatter here").1 rfl,
   (C5_amendment "---\ncategory: Tools\n---\n").2.2 [("category", YVal.str "Tools")]
     (YVal.str "Tools") rfl rfl⟩
